import Mathlib

/-!
Shallow embedding of the NSE_Dashboard server core (`src/server.js`):
the symbol registry preload, the TTL result cache, the batched fetcher
with per-batch retry, the industry aggregation, and the two HTTP
handlers `/api/market-data` and `/api/industry-data`.

JavaScript numbers are modelled as exact rationals (ℚ); epoch
milliseconds as ℤ.  Provider payloads are modelled with an explicit
JSON-value type so that "missing" and "non-numeric" fields are
distinguishable, mirroring the `typeof x === 'number'` checks in the
source.  Effects (cache writes) are threaded explicitly; timers
(`setTimeout`) are recorded as counts.
-/

namespace NSE

/-- `BATCH_SIZE` from `server.js` line 16. -/
def BATCH_SIZE : Nat := 50

/-- `MAX_RETRIES` from `server.js` line 18. -/
def MAX_RETRIES : Nat := 5

/-- The freshness window used at cache-read time: `300 * 1000` ms
(`server.js` lines 139 and 281). -/
def CACHE_TTL_MS : Int := 300 * 1000

/-- A JSON field value as far as the pipeline inspects it: a number, a
non-number, or JavaScript `null`/`undefined`. -/
inductive JVal where
  | num (q : ℚ)
  | str (s : String)
  | jnull
deriving DecidableEq

/-- `typeof v === 'number'` on a `JVal`. -/
def JVal.isNumber : JVal → Bool
  | .num _ => true
  | _ => false

/-- The `priceInfo` sub-object of a raw provider payload. -/
structure RawPriceInfo where
  pChange : JVal
  lastPrice : JVal
deriving DecidableEq

/-- The `info` sub-object of a raw provider payload
(`companyName` may be absent, modelled as `none`). -/
structure RawInfo where
  companyName : Option String
deriving DecidableEq

/-- A raw payload from `nseIndia.getEquityDetails`; sub-objects may be
absent. -/
structure RawResult where
  priceInfo : Option RawPriceInfo
  info : Option RawInfo
deriving DecidableEq

/-- The numeric `priceInfo` of an emitted quote
(`{ pChange, lastPrice }`). -/
structure PriceInfo where
  pChange : ℚ
  lastPrice : ℚ
deriving DecidableEq

/-- The `info` of an emitted quote. -/
structure Info where
  companyName : String
deriving DecidableEq

/-- A per-symbol result object as pushed into `results`
(`{ symbol, priceInfo, info }`). -/
structure Quote where
  symbol : String
  priceInfo : PriceInfo
  info : Info
deriving DecidableEq

/-- A cache entry as written by `cache.set(symbol, {...})`
(`server.js` lines 188-195). -/
structure CacheEntry where
  pChange : ℚ
  lastPrice : ℚ
  companyName : String
  timestamp : Int
deriving DecidableEq

/-- The node-cache store, as an association list; newest binding first. -/
abbrev Cache := List (String × CacheEntry)

/-- `cache.get(symbol)` on the underlying store (no freshness check). -/
def cacheGet (c : Cache) (s : String) : Option CacheEntry :=
  (c.find? (fun p => p.1 = s)).map (fun p => p.2)

/-- `cache.set(symbol, e)`: the new binding shadows any older one. -/
def cacheSet (c : Cache) (s : String) (e : CacheEntry) : Cache :=
  (s, e) :: c

/-- The read path used by the fetcher and the industry handler:
`cache.get(symbol)` followed by the explicit freshness check
`cached.timestamp > Date.now() - 300 * 1000`
(`server.js` lines 138-139 and 280-281). -/
def freshGet (c : Cache) (now : Int) (s : String) : Option CacheEntry :=
  match cacheGet c s with
  | some e => if e.timestamp > now - CACHE_TTL_MS then some e else none
  | none => none

/-- The external world, fixed for one call: the outcome of
`getEquityDetails` per symbol (`none` models a rejected promise, caught
at `server.js` line 167, or a falsy payload), whether the batch-level
try block throws on a given (batch index, 1-based attempt number), and
`Date.now()`. -/
structure Env where
  fetchO : String → Option RawResult
  batchThrows : Nat → Nat → Bool
  now : Int

/-- `result.info?.companyName || 'Unknown'` (`server.js` line 184):
absent or empty-string names become `"Unknown"`. -/
def companyNameOf (r : RawResult) : String :=
  match r.info with
  | some i =>
    match i.companyName with
    | some n => if n = "" then "Unknown" else n
    | none => "Unknown"
  | none => "Unknown"

/-- The per-symbol step of a batch: fetch outcome, then the filter
`result && result.priceInfo && typeof pChange === 'number' &&
typeof lastPrice === 'number'` and the mapping to a result object
(`server.js` lines 164-186).  `none` means the symbol is excluded. -/
def fetchSymbol (env : Env) (sym : String) : Option Quote :=
  match env.fetchO sym with
  | none => none
  | some r =>
    match r.priceInfo with
    | none => none
    | some pi =>
      match pi.pChange, pi.lastPrice with
      | .num pc, .num lp =>
        some { symbol := sym, priceInfo := { pChange := pc, lastPrice := lp },
               info := { companyName := companyNameOf r } }
      | _, _ => none

/-- `validResults` for one successful batch attempt: the concurrent
per-symbol fetches, filtered to well-formed numeric payloads, in batch
order (`server.js` lines 164-186). -/
def validResultsOf (env : Env) (batch : List String) : List Quote :=
  batch.filterMap (fetchSymbol env)

/-- Observable outcome of the `while (attempts > 0)` retry loop for one
batch: the quotes of the successful attempt (or `none` when the budget
is exhausted), the number of attempts made, and the number of 1-second
backoff sleeps taken (`server.js` lines 161-208). -/
structure RetryTrace where
  outcome : Option (List Quote)
  attempts : Nat
  backoffs : Nat
deriving DecidableEq

/-- The retry loop, by remaining budget: an attempt either throws
(per `env.batchThrows`) or succeeds with `validResultsOf`.  After a
failed attempt the budget is decremented; with budget left a 1-second
backoff is taken, otherwise the loop exits (`continue` with
`attempts === 0`). -/
def runRetryLoop (env : Env) (i : Nat) (batch : List String) :
    Nat → Nat → RetryTrace
  | _, 0 => { outcome := none, attempts := 0, backoffs := 0 }
  | attemptNo, left + 1 =>
    if env.batchThrows i attemptNo then
      if left = 0 then { outcome := none, attempts := 1, backoffs := 0 }
      else
        let t := runRetryLoop env i batch (attemptNo + 1) left
        { outcome := t.outcome, attempts := t.attempts + 1,
          backoffs := t.backoffs + 1 }
    else { outcome := some (validResultsOf env batch), attempts := 1, backoffs := 0 }

/-- `cache.set` for one successful quote, stamped `Date.now()`
(`server.js` lines 188-195). -/
def writeQuote (now : Int) (c : Cache) (q : Quote) : Cache :=
  cacheSet c q.symbol
    { pChange := q.priceInfo.pChange, lastPrice := q.priceInfo.lastPrice,
      companyName := q.info.companyName, timestamp := now }

/-- `for (let i = 0; i < len; i += batchSize)` slicing (`server.js`
lines 155-157); a zero batch size degenerates to a single chunk. -/
def chunksOf (bs : Nat) : List String → List (List String)
  | [] => []
  | l@(_ :: xs) =>
    if bs = 0 then [l]
    else (l.take bs) :: chunksOf bs (xs.drop (bs - 1))
termination_by l => l.length

/-- The sequential batch loop (`server.js` lines 159-212): each batch
runs the retry loop; a successful attempt's quotes are written to the
cache and appended to the results; an exhausted batch contributes
nothing and processing continues with the next batch. -/
def processBatches (env : Env) : Cache → List (List String) → Nat → List Quote × Cache
  | c, [], _ => ([], c)
  | c, b :: rest, i =>
    match (runRetryLoop env i b 1 MAX_RETRIES).outcome with
    | none => processBatches env c rest (i + 1)
    | some qs =>
      let c1 := qs.foldl (writeQuote env.now) c
      let pr := processBatches env c1 rest (i + 1)
      (qs ++ pr.1, pr.2)

/-- A cache entry replayed as a result object (`server.js` lines 140-144
and 282-287). -/
def quoteOfEntry (s : String) (e : CacheEntry) : Quote :=
  { symbol := s, priceInfo := { pChange := e.pChange, lastPrice := e.lastPrice },
    info := { companyName := e.companyName } }

/-- Return value of `fetchEquityDetailsInBatches`. -/
structure FetchResult where
  results : List Quote
  cached : Bool
deriving DecidableEq

/-- `fetchEquityDetailsInBatches(symbols, batchSize, forceRefresh)`
(`server.js` lines 122-215), with the module state (`allSymbolsSet`,
the cache, `FORCE_CACHE_BYPASS`) passed explicitly.  Returns the result
object together with the final cache state. -/
def fetchEquityDetailsInBatches (env : Env) (allSyms : List String)
    (c0 : Cache) (symbols : List String) (batchSize : Nat)
    (forceRefresh bypass : Bool) : FetchResult × Cache :=
  let validSymbols := symbols.filter (fun s => allSyms.contains s && s.trim ≠ "")
  let useCache := !forceRefresh && !bypass
  let hitQuotes :=
    if useCache then
      validSymbols.filterMap (fun s => (freshGet c0 env.now s).map (quoteOfEntry s))
    else []
  let uncached :=
    if useCache then validSymbols.filter (fun s => (freshGet c0 env.now s).isNone)
    else validSymbols
  let pr := processBatches env c0 (chunksOf batchSize uncached) 0
  ({ results := hitQuotes ++ pr.1,
     cached := decide (0 < hitQuotes.length) && useCache }, pr.2)

/-! ## Symbol registry preload (`preloadExcelData`, `server.js` lines 82-120) -/

/-- One spreadsheet row as `readExcelFile` returns it: the `Symbol` and
`Industry` cells, each possibly absent. -/
structure Row where
  symbol : Option String
  industry : Option String
deriving DecidableEq

/-- `sym.toUpperCase().replace(/\.NS$/, '')`. -/
def normalizeSymbol (s : String) : String :=
  let u := s.toUpper
  if u.endsWith ".NS" then u.dropRight 3 else u

/-- `row['Symbol']?.toString().toUpperCase().replace(/\.NS$/, '') || ''`. -/
def rowSymbol (r : Row) : String :=
  match r.symbol with
  | some s => normalizeSymbol s
  | none => ""

/-- `row['Industry']?.toString().trim() || 'Other'`. -/
def rowIndustry (r : Row) : String :=
  match r.industry with
  | some s => if s.trim = "" then "Other" else s.trim
  | none => "Other"

/-- `DEFAULT_INDUSTRY_DATA` (`server.js` lines 30-37), in insertion
order. -/
def DEFAULT_INDUSTRY_DATA : List (String × List String) :=
  [("Industrial", ["TIMKEN"]),
   ("Financial Services", ["PAYTM", "POLICYBZR", "PNBHOUSING", "POONAWALLA"]),
   ("Energy", ["RELIANCE"]),
   ("Technology", ["TCS"]),
   ("Infrastructure", ["PFC"]),
   ("Consumer Services", ["PEL"])]

/-- `Object.values(DEFAULT_INDUSTRY_DATA).flat()`. -/
def defaultSymbols : List String :=
  (DEFAULT_INDUSTRY_DATA.map (fun p => p.2)).flatten

/-- `allSymbolsSet.add(sym)` on a list kept duplicate-free in insertion
order. -/
def addSymbolOnce (l : List String) (s : String) : List String :=
  if s ∈ l then l else l ++ [s]

/-- Insert a symbol under an industry key: create the key at the end on
first sight, and deduplicate symbols within the industry
(`server.js` lines 97-102). -/
def addToIndustry (d : List (String × List String)) (ind sym : String) :
    List (String × List String) :=
  if d.any (fun p => p.1 = ind) then
    d.map (fun p =>
      if p.1 = ind then (p.1, if sym ∈ p.2 then p.2 else p.2 ++ [sym]) else p)
  else d ++ [(ind, [sym])]

/-- The `nifty500Data.forEach` body (`server.js` lines 90-104), folded
over one row: state is `(industryData, allSymbolsSet)`. -/
def preloadStep (st : List (String × List String) × List String) (r : Row) :
    List (String × List String) × List String :=
  let sym := rowSymbol r
  if sym = "" then st
  else (addToIndustry st.1 (rowIndustry r) sym, addSymbolOnce st.2 sym)

/-- The module state established by `preloadExcelData`. -/
structure PreState where
  nifty500Data : List Row
  industryData : List (String × List String)
  allSymbols : List String
deriving DecidableEq

/-- `preloadExcelData` (`server.js` lines 82-120), with the spreadsheet
read outcome passed in (`Except.error` = `readExcelFile` threw).  The
module starts with an empty `allSymbolsSet`; both the zero-industry
branch and the catch branch substitute `DEFAULT_INDUSTRY_DATA` and add
its symbols to the set, and the catch branch also resets
`nifty500Data`. -/
def preloadExcelData (readResult : Except String (List Row)) : PreState :=
  match readResult with
  | .error _ =>
    { nifty500Data := [],
      industryData := DEFAULT_INDUSTRY_DATA,
      allSymbols := defaultSymbols.foldl addSymbolOnce [] }
  | .ok rows =>
    let st := rows.foldl preloadStep ([], [])
    if st.1 = [] then
      { nifty500Data := rows,
        industryData := DEFAULT_INDUSTRY_DATA,
        allSymbols := defaultSymbols.foldl addSymbolOnce st.2 }
    else
      { nifty500Data := rows, industryData := st.1, allSymbols := st.2 }

/-! ## Industry aggregation (`/api/industry-data`, `server.js` lines 302-342) -/

/-- Per-industry accumulator (`industryMetrics[industry]`). -/
structure IMetrics where
  totalPChange : ℚ
  count : Nat
  stocks : List Quote
deriving DecidableEq

/-- `totalPChange += …; count += 1; stocks.push(…)`. -/
def bumpMetrics (m : IMetrics) (q : Quote) : IMetrics :=
  { totalPChange := m.totalPChange + q.priceInfo.pChange,
    count := m.count + 1, stocks := m.stocks ++ [q] }

/-- Attribute one quote to one industry, creating the key at the end on
first sight (`server.js` lines 306-321). -/
def addQuoteInd (acc : List (String × IMetrics)) (ind : String) (q : Quote) :
    List (String × IMetrics) :=
  if acc.any (fun p => p.1 = ind) then
    acc.map (fun p => if p.1 = ind then (p.1, bumpMetrics p.2 q) else p)
  else acc ++ [(ind, bumpMetrics { totalPChange := 0, count := 0, stocks := [] } q)]

/-- `symbolToIndustries[stock.symbol] || ['N/A']`. -/
def industriesOf (s2i : String → Option (List String)) (sym : String) :
    List String :=
  (s2i sym).getD ["N/A"]

/-- The `validResults.forEach` accumulation (`server.js` lines 303-322). -/
def buildMetrics (s2i : String → Option (List String)) (quotes : List Quote) :
    List (String × IMetrics) :=
  quotes.foldl
    (fun acc q => (industriesOf s2i q.symbol).foldl (fun a i => addQuoteInd a i q) acc)
    []

/-- `[...stocks].sort((a, b) => b.priceInfo.pChange - a.priceInfo.pChange)`:
stable descending sort by percent change. -/
def sortStocksDesc (l : List Quote) : List Quote :=
  l.mergeSort (fun a b => decide (b.priceInfo.pChange ≤ a.priceInfo.pChange))

/-- Floor of a rational, computably (`den` is always positive). -/
def ratFloor (q : ℚ) : Int := q.num.fdiv q.den

/-- Round to the nearest integer, ties away from zero — the rounding
`Number.prototype.toFixed` applies to the digit string of `|x|`. -/
def roundHalfAwayFromZero (q : ℚ) : Int :=
  if 0 ≤ q then ratFloor (q + 1 / 2) else -ratFloor (-q + 1 / 2)

/-- The numeric value `x.toFixed(2)` denotes, as a rational
(two-decimal rounding). -/
def round2 (q : ℚ) : ℚ := (roundHalfAwayFromZero (q * 100) : ℚ) / 100

/-- Zero-pad a two-digit fractional part. -/
def pad2 (n : Nat) : String :=
  if n < 10 then "0" ++ toString n else toString n

/-- `x.toFixed(2)` as a string: sign of `x`, integer part, dot, two
fractional digits. -/
def toFixed2Str (q : ℚ) : String :=
  let n := roundHalfAwayFromZero (q * 100)
  let sign := if q < 0 then "-" else ""
  sign ++ toString (n.natAbs / 100) ++ "." ++ pad2 (n.natAbs % 100)

/-- One element of the `industries` response array (`server.js`
lines 325-340).  `avgVal` carries the numeric value of
`parseFloat(avgPChange)` used for the final ranking sort. -/
structure IndustryAgg where
  industry : String
  avgPChange : String
  avgVal : ℚ
  stockCount : Nat
  stocks : List Quote
  topStock : Option Quote
deriving DecidableEq

/-- The `Object.keys(industryMetrics).map(...)` projection followed by
the `stockCount > 0` filter (`server.js` lines 325-340).  The
`count === 0` branch of the source yields the number `0` for
`avgPChange`; it is unreachable (entries are created with count 1) and
the filter drops it, so it is rendered as `"0"` here. -/
def aggregateIndustries (s2i : String → Option (List String))
    (quotes : List Quote) : List IndustryAgg :=
  ((buildMetrics s2i quotes).map (fun p =>
    let sorted := sortStocksDesc p.2.stocks
    { industry := p.1,
      avgPChange :=
        if 0 < p.2.count then toFixed2Str (p.2.totalPChange / (p.2.count : ℚ))
        else "0",
      avgVal :=
        if 0 < p.2.count then round2 (p.2.totalPChange / (p.2.count : ℚ)) else 0,
      stockCount := p.2.count,
      stocks := sorted,
      topStock := sorted.head? })).filter (fun a => 0 < a.stockCount)

/-- `industries.sort((a, b) => parseFloat(b.avgPChange) - parseFloat(a.avgPChange))`
(`server.js` line 342). -/
def sortIndustriesDesc (l : List IndustryAgg) : List IndustryAgg :=
  l.mergeSort (fun a b => decide (b.avgVal ≤ a.avgVal))

/-! ## HTTP handlers -/

/-- `/api/market-data` symbol derivation (`server.js` line 221):
normalize each row's symbol and `filter(Boolean)` (drops absent cells
and empty strings). -/
def marketSymbols (rows : List Row) : List String :=
  rows.filterMap (fun r =>
    match r.symbol with
    | some s => if normalizeSymbol s = "" then none else some (normalizeSymbol s)
    | none => none)

/-- Gainers/losers computation (`server.js` lines 233-238): the source
sorts `validResults` in place, so the losers filter runs on the
descending-sorted array. -/
def marketSummary (quotes : List Quote) : List Quote × List Quote :=
  let sortedResults := sortStocksDesc quotes
  let gainers := sortedResults.take 10
  let losers :=
    ((sortedResults.filter (fun q => q.priceInfo.pChange < 0)).mergeSort
      (fun a b => decide (a.priceInfo.pChange ≤ b.priceInfo.pChange))).take 10
  (gainers, losers)

/-- Response of `/api/market-data`. -/
structure MarketDataResponse where
  status : Nat
  error : Option String
  gainers : List Quote
  losers : List Quote
  cached : Bool
deriving DecidableEq

/-- The `/api/market-data` handler (`server.js` lines 218-244), with
module state, environment and cache passed explicitly
(`SKIP_NIFTY500_VALIDATION` is `false`). -/
def marketDataHandler (st : PreState) (env : Env) (c0 : Cache)
    (forceRefresh bypass : Bool) : MarketDataResponse :=
  let symbols := marketSymbols st.nifty500Data
  if symbols = [] then
    { status := 500, error := some "No symbols loaded from NIFTY500.xlsx",
      gainers := [], losers := [], cached := false }
  else
    let fr := (fetchEquityDetailsInBatches env st.allSymbols c0 symbols
      BATCH_SIZE forceRefresh bypass).1
    if fr.results = [] then
      { status := 500, error := some "No valid market data retrieved",
        gainers := [], losers := [], cached := false }
    else
      let gl := marketSummary fr.results
      { status := 200, error := none, gainers := gl.1, losers := gl.2,
        cached := fr.cached }

/-- The `allSymbols` / `symbolToIndustries` construction of the industry
handler (`server.js` lines 260-273); `MAX_SYMBOLS_PER_INDUSTRY` is `0`,
so no per-industry truncation applies. -/
def buildSymbolMaps (industryData : List (String × List String)) :
    List String × List (String × List String) :=
  industryData.foldl
    (fun st p =>
      p.2.foldl
        (fun st2 sym =>
          (addSymbolOnce st2.1 sym,
           if st2.2.any (fun q => q.1 = sym) then
             st2.2.map (fun q => if q.1 = sym then (q.1, q.2 ++ [p.1]) else q)
           else st2.2 ++ [(sym, [p.1])]))
        st)
    ([], [])

/-- Lookup in the request-scoped `symbolToIndustries` object. -/
def s2iLookup (assoc : List (String × List String)) (s : String) :
    Option (List String) :=
  (assoc.find? (fun p => p.1 = s)).map (fun p => p.2)

/-- The cache-only second pass of the industry handler (`server.js`
lines 278-288): replay every fresh cache entry over `allSymbols`. -/
def cachePassList (c : Cache) (now : Int) (syms : List String) : List Quote :=
  syms.filterMap (fun s => (freshGet c now s).map (quoteOfEntry s))

/-- Response of `/api/industry-data`. -/
structure IndustryDataResponse where
  status : Nat
  industries : List IndustryAgg
  cached : Bool
  warning : Option String
deriving DecidableEq

/-- The fetch call made by the industry handler, named so the theorems
can refer to its result. -/
def industryFetch (st : PreState) (env : Env) (c0 : Cache)
    (forceRefresh bypass : Bool) : FetchResult × Cache :=
  fetchEquityDetailsInBatches env st.allSymbols c0
    (buildSymbolMaps st.industryData).1 BATCH_SIZE forceRefresh bypass

/-- The `/api/industry-data` handler (`server.js` lines 247-352), with
module state, environment and cache passed explicitly. -/
def industryDataHandler (st : PreState) (env : Env) (c0 : Cache)
    (forceRefresh bypass : Bool) : IndustryDataResponse :=
  if st.industryData = [] then
    { status := 200, industries := [], cached := false,
      warning := some "No industry data available" }
  else
    let maps := buildSymbolMaps st.industryData
    let frc := industryFetch st env c0 forceRefresh bypass
    let s2i := s2iLookup maps.2
    if frc.1.results = [] then
      let cp := cachePassList frc.2 env.now maps.1
      if cp = [] then
        { status := 200, industries := [], cached := false,
          warning := some "No valid industry data retrieved" }
      else
        { status := 200,
          industries := sortIndustriesDesc (aggregateIndustries s2i cp),
          cached := true, warning := none }
    else
      { status := 200,
        industries := sortIndustriesDesc (aggregateIndustries s2i frc.1.results),
        cached := frc.1.cached, warning := none }

/-- The cache-only pass the industry handler runs after an empty fetch,
as a named whole (fetch's final cache, `Date.now()`, the handler's
`allSymbols`). -/
def industryCachePass (st : PreState) (env : Env) (c0 : Cache)
    (forceRefresh bypass : Bool) : List Quote :=
  cachePassList (industryFetch st env c0 forceRefresh bypass).2 env.now
    (buildSymbolMaps st.industryData).1

/-- A trivial environment: every fetch rejects, no batch-level throw. -/
def trivialEnv : Env :=
  { fetchO := fun _ => none, batchThrows := fun _ _ => false, now := 0 }

/-- An environment whose batch-level fetch step always throws. -/
def alwaysThrowEnv : Env :=
  { fetchO := fun _ => none, batchThrows := fun _ _ => true, now := 0 }

/-- Invariant of the per-industry accumulators: the running sum and
count agree with the collected stock list. -/
def MetricsInv (acc : List (String × IMetrics)) : Prop :=
  ∀ p ∈ acc,
    p.2.totalPChange = (p.2.stocks.map (fun q => q.priceInfo.pChange)).sum ∧
    p.2.count = p.2.stocks.length

/-- A cache entry used by concrete examples. -/
def entryS : CacheEntry :=
  { pChange := 1, lastPrice := 2, companyName := "c", timestamp := 0 }

/-- The `A, +2.0` quote of the aggregation example. -/
def qA : Quote :=
  { symbol := "A", priceInfo := { pChange := 2, lastPrice := 100 },
    info := { companyName := "A Ltd" } }

/-- The `B, +4.0` quote of the aggregation example. -/
def qB : Quote :=
  { symbol := "B", priceInfo := { pChange := 4, lastPrice := 100 },
    info := { companyName := "B Ltd" } }

/-- Symbol-to-industry map sending both example symbols to "Tech". -/
def s2iTech : String → Option (List String) :=
  fun s => if s = "A" ∨ s = "B" then some ["Tech"] else none

/-- The expected "Tech" aggregate for the example. -/
def aggTech : IndustryAgg :=
  { industry := "Tech", avgPChange := "3.00", avgVal := 3, stockCount := 2,
    stocks := [qB, qA], topStock := some qB }

/-- Build an example quote with a given symbol and percent change. -/
def mkQuote (s : String) (p : ℚ) : Quote :=
  { symbol := s, priceInfo := { pChange := p, lastPrice := 1 },
    info := { companyName := s } }

/-- The four quotes of the losers example. -/
def exQuotes : List Quote :=
  [mkQuote "w" (-5), mkQuote "x" (-1), mkQuote "y" (-8), mkQuote "z" 2]

/-- The registry state after a failed spreadsheet read, used by the C10
witness. -/
def stFallback : PreState := preloadExcelData (.error "ENOENT")

/-- A fresh cache entry for "TCS", used by the C10 witness. -/
def cacheTCS : Cache :=
  [("TCS", { pChange := 5, lastPrice := 1, companyName := "t",
             timestamp := -1000 })]

/-! ## Helper lemmas -/

theorem fetchSymbol_inv {env : Env} {s : String} {q : Quote}
    (h : fetchSymbol env s = some q) :
    q.symbol = s ∧ ∃ r pi, env.fetchO s = some r ∧ r.priceInfo = some pi ∧
      pi.pChange = JVal.num q.priceInfo.pChange ∧
      pi.lastPrice = JVal.num q.priceInfo.lastPrice := by
  unfold fetchSymbol at h
  split at h
  · cases h
  · split at h
    · cases h
    · split at h
      · rename_i ores rres hres opi rpi hrpi jv1 jv2 pc lp hpc hlp
        injection h with h1
        subst h1
        exact ⟨rfl, rres, rpi, hres, hrpi, hpc, hlp⟩
      · cases h

theorem fetchSymbol_symbol {env : Env} {s : String} {q : Quote}
    (h : fetchSymbol env s = some q) : q.symbol = s :=
  (fetchSymbol_inv h).1

theorem mem_validResultsOf {env : Env} {b : List String} {q : Quote} :
    q ∈ validResultsOf env b ↔ ∃ s ∈ b, fetchSymbol env s = some q := by
  simp [validResultsOf, List.mem_filterMap]

theorem runRetryLoop_outcome {env : Env} {i : Nat} {b : List String} :
    ∀ {n a : Nat} {qs : List Quote},
      (runRetryLoop env i b a n).outcome = some qs → qs = validResultsOf env b := by
  intro n
  induction n with
  | zero => intro a qs h; simp [runRetryLoop] at h
  | succ m ih =>
    intro a qs h
    unfold runRetryLoop at h
    by_cases ht : env.batchThrows i a = true
    · rw [if_pos ht] at h
      by_cases hm : m = 0
      · rw [if_pos hm] at h; cases h
      · rw [if_neg hm] at h
        exact ih h
    · rw [if_neg ht] at h
      cases h
      rfl

theorem mem_processBatches {env : Env} {q : Quote} :
    ∀ {bs : List (List String)} {c : Cache} {i : Nat},
      q ∈ (processBatches env c bs i).1 → ∃ b ∈ bs, q.symbol ∈ b := by
  intro bs
  induction bs with
  | nil => intro c i h; simp [processBatches] at h
  | cons b rest ih =>
    intro c i h
    unfold processBatches at h
    cases ho : (runRetryLoop env i b 1 MAX_RETRIES).outcome with
    | none =>
      rw [ho] at h
      obtain ⟨b', hb', hq⟩ := ih h
      exact ⟨b', List.mem_cons_of_mem _ hb', hq⟩
    | some qs =>
      rw [ho] at h
      simp only [List.mem_append] at h
      rcases h with h | h
      · have hqs : qs = validResultsOf env b := runRetryLoop_outcome ho
        subst hqs
        obtain ⟨s, hs, hf⟩ := mem_validResultsOf.mp h
        exact ⟨b, List.mem_cons_self _ _, (fetchSymbol_symbol hf) ▸ hs⟩
      · obtain ⟨b', hb', hq⟩ := ih h
        exact ⟨b', List.mem_cons_of_mem _ hb', hq⟩

theorem mem_of_mem_chunksOf_aux {bs : Nat} :
    ∀ (n : Nat) (l b : List String) (x : String), l.length ≤ n →
      b ∈ chunksOf bs l → x ∈ b → x ∈ l := by
  intro n
  induction n with
  | zero =>
    intro l b x hlen hb hx
    match l with
    | [] => simp [chunksOf] at hb
    | y :: ys => simp at hlen
  | succ m ih =>
    intro l b x hlen hb hx
    match l with
    | [] => simp [chunksOf] at hb
    | y :: ys =>
      unfold chunksOf at hb
      by_cases h0 : bs = 0
      · rw [if_pos h0] at hb
        simp only [List.mem_singleton] at hb
        exact hb ▸ hx
      · rw [if_neg h0] at hb
        rcases List.mem_cons.mp hb with h | h
        · subst h
          exact List.mem_of_mem_take hx
        · have hlen2 : (ys.drop (bs - 1)).length ≤ m := by
            simp only [List.length_cons] at hlen
            simp only [List.length_drop]
            omega
          have := ih (ys.drop (bs - 1)) b x hlen2 h hx
          exact List.mem_cons_of_mem _ (List.mem_of_mem_drop this)

theorem mem_of_mem_chunksOf {bs : Nat} {l b : List String} {x : String}
    (hb : b ∈ chunksOf bs l) (hx : x ∈ b) : x ∈ l :=
  mem_of_mem_chunksOf_aux l.length l b x (le_refl _) hb hx

theorem freshGet_some {c : Cache} {now : Int} {s : String} {e : CacheEntry}
    (h : freshGet c now s = some e) :
    cacheGet c s = some e ∧ now - e.timestamp < CACHE_TTL_MS := by
  unfold freshGet at h
  split at h
  · rename_i e' hg
    split at h
    · rename_i ht
      injection h with h1
      subst h1
      exact ⟨hg, by omega⟩
    · cases h
  · cases h

theorem mem_cachePassList {c : Cache} {now : Int} {syms : List String} {q : Quote}
    (h : q ∈ cachePassList c now syms) :
    ∃ e, cacheGet c q.symbol = some e ∧ now - e.timestamp < CACHE_TTL_MS ∧
      q = quoteOfEntry q.symbol e := by
  unfold cachePassList at h
  obtain ⟨s, _, hf⟩ := List.mem_filterMap.mp h
  cases hg : freshGet c now s with
  | none => rw [hg] at hf; cases hf
  | some e =>
    rw [hg] at hf
    cases hf
    obtain ⟨hge, hfresh⟩ := freshGet_some hg
    exact ⟨e, hge, hfresh, rfl⟩

/-! ## Claims -/

/-- C5: a Quote served by the cache-read path satisfies
`now - fetchedAtEpochMs < TTL` (300 s); an entry still present in the
underlying store but older than the TTL is reported absent by the read
path. -/
theorem cache_freshness (c : Cache) (now : Int) (s : String) (e : CacheEntry) :
    (freshGet c now s = some e → now - e.timestamp < CACHE_TTL_MS) ∧
    (cacheGet c s = some e → CACHE_TTL_MS < now - e.timestamp →
      freshGet c now s = none) := by
  constructor
  · intro h
    exact (freshGet_some h).2
  · intro hg hold
    have hnot : ¬ e.timestamp > now - CACHE_TTL_MS := by omega
    unfold freshGet
    simp only [hg]
    rw [if_neg hnot]

/-- Witness for C5 at a concrete cache: a 299 999 ms old entry is served
and satisfies the freshness bound; a 300 001 ms old entry still in the
store is reported absent. -/
theorem cache_freshness_witness :
    (freshGet [("S", CacheEntry.mk 1 2 "c" 0)] 299999 "S" =
        some (CacheEntry.mk 1 2 "c" 0) ∧
      299999 - (CacheEntry.mk 1 2 "c" 0).timestamp < CACHE_TTL_MS) ∧
    (cacheGet [("S", CacheEntry.mk 1 2 "c" 0)] "S" =
        some (CacheEntry.mk 1 2 "c" 0) ∧
      freshGet [("S", CacheEntry.mk 1 2 "c" 0)] 300001 "S" = none) := by
  refine ⟨⟨by decide, ?_⟩, ⟨by decide, ?_⟩⟩
  · exact (cache_freshness [("S", CacheEntry.mk 1 2 "c" 0)] 299999 "S"
      (CacheEntry.mk 1 2 "c" 0)).1 (by decide)
  · exact (cache_freshness [("S", CacheEntry.mk 1 2 "c" 0)] 300001 "S"
      (CacheEntry.mk 1 2 "c" 0)).2 (by decide) (by decide)

/-- C6: within a batch, every symbol whose fetch yields a well-formed
payload contributes its Quote to the batch's results regardless of any
other symbol's failure, and every emitted Quote's `pChange`/`lastPrice`
stem from numeric fields of that symbol's provider payload. -/
theorem symbol_failure_isolation (env : Env) (b : List String) :
    (∀ s q, s ∈ b → fetchSymbol env s = some q → q ∈ validResultsOf env b) ∧
    (∀ q ∈ validResultsOf env b, ∃ r pi,
      env.fetchO q.symbol = some r ∧ r.priceInfo = some pi ∧
      pi.pChange = JVal.num q.priceInfo.pChange ∧
      pi.lastPrice = JVal.num q.priceInfo.lastPrice) := by
  constructor
  · intro s q hs hf
    exact mem_validResultsOf.mpr ⟨s, hs, hf⟩
  · intro q hq
    obtain ⟨s, _, hf⟩ := mem_validResultsOf.mp hq
    obtain ⟨hsym, r, pi, hr, hpi, hpc, hlp⟩ := fetchSymbol_inv hf
    exact ⟨r, pi, hsym ▸ hr, hpi, hpc, hlp⟩

/-- Witness for C6: in the batch `["A", "B"]` where "A"'s fetch rejects,
"B" still yields its Quote, whose numbers match its payload. -/
theorem symbol_failure_isolation_witness :
    "B" ∈ ["A", "B"] ∧
    Quote.mk "B" (PriceInfo.mk 1 2) (Info.mk "co") ∈
      validResultsOf
        { fetchO := fun s =>
            if s = "B" then
              some (RawResult.mk (some (RawPriceInfo.mk (.num 1) (.num 2)))
                (some (RawInfo.mk (some "co"))))
            else none,
          batchThrows := fun _ _ => false, now := 0 } ["A", "B"] := by
  refine ⟨by decide, ?_⟩
  exact (symbol_failure_isolation
      { fetchO := fun s =>
          if s = "B" then
            some (RawResult.mk (some (RawPriceInfo.mk (.num 1) (.num 2)))
              (some (RawInfo.mk (some "co"))))
          else none,
        batchThrows := fun _ _ => false, now := 0 } ["A", "B"]).1
    "B" (Quote.mk "B" (PriceInfo.mk 1 2) (Info.mk "co")) (by decide) (by decide)

/-- C2: when every attempt at a batch throws, the retry loop makes
exactly 5 attempts with a 1-second backoff between consecutive attempts
(4 backoffs), yields no outcome, and the batch loop abandons that batch
and continues with the remaining batches, returning normally. -/
theorem batch_retry_exhaustion (env : Env) (i : Nat) (b : List String)
    (H : ∀ k, 1 ≤ k → k ≤ 5 → env.batchThrows i k = true) :
    runRetryLoop env i b 1 MAX_RETRIES =
      { outcome := none, attempts := 5, backoffs := 4 } ∧
    ∀ c rest, processBatches env c (b :: rest) i =
      processBatches env c rest (i + 1) := by
  have h1 := H 1 (by norm_num) (by norm_num)
  have h2 := H 2 (by norm_num) (by norm_num)
  have h3 := H 3 (by norm_num) (by norm_num)
  have h4 := H 4 (by norm_num) (by norm_num)
  have h5 := H 5 (by norm_num) (by norm_num)
  have hloop : runRetryLoop env i b 1 MAX_RETRIES =
      { outcome := none, attempts := 5, backoffs := 4 } := by
    show runRetryLoop env i b 1 5 = _
    rw [show (5 : Nat) = 4 + 1 from rfl, runRetryLoop, if_pos h1, if_neg (by omega)]
    rw [show (4 : Nat) = 3 + 1 from rfl, runRetryLoop, if_pos h2, if_neg (by omega)]
    rw [show (3 : Nat) = 2 + 1 from rfl, runRetryLoop, if_pos h3, if_neg (by omega)]
    rw [show (2 : Nat) = 1 + 1 from rfl, runRetryLoop, if_pos h4, if_neg (by omega)]
    rw [show (1 : Nat) = 0 + 1 from rfl, runRetryLoop, if_pos h5, if_pos rfl]
  refine ⟨hloop, ?_⟩
  intro c rest
  simp only [processBatches, hloop]

/-- Witness for C2: with an always-throwing environment, one batch is
attempted 5 times with 4 backoffs and abandoned, and the batch loop on
`[["X"]]` equals the loop on the remaining (empty) batch list. -/
theorem batch_retry_exhaustion_witness :
    runRetryLoop alwaysThrowEnv 0 ["X"] 1 MAX_RETRIES =
      { outcome := none, attempts := 5, backoffs := 4 } ∧
    processBatches alwaysThrowEnv [] [["X"]] 0 =
      processBatches alwaysThrowEnv [] [] 1 := by
  have h := batch_retry_exhaustion alwaysThrowEnv 0 ["X"] (fun _ _ _ => rfl)
  exact ⟨h.1, h.2 [] []⟩

theorem mem_allSyms_of_mem_valid {allSyms symbols : List String} {x : String}
    (h : x ∈ symbols.filter (fun s => allSyms.contains s && s.trim ≠ "")) :
    x ∈ allSyms := by
  have hp := (List.mem_filter.mp h).2
  rw [Bool.and_eq_true] at hp
  simpa using hp.1

/-- C1: every Quote returned by `fetchEquityDetailsInBatches` — whether
served from the cache or freshly fetched — carries a symbol that is a
member of the registry's `allSymbolsSet`; no quote for an unregistered
symbol is ever returned. -/
theorem fetch_quotes_subset_registry (env : Env) (allSyms : List String)
    (c0 : Cache) (symbols : List String) (bs : Nat) (fr byp : Bool) (q : Quote)
    (hq : q ∈ (fetchEquityDetailsInBatches env allSyms c0 symbols bs fr byp).1.results) :
    q.symbol ∈ allSyms := by
  simp only [fetchEquityDetailsInBatches] at hq
  rcases List.mem_append.mp hq with h | h
  · by_cases huc : (!fr && !byp) = true
    · rw [if_pos huc] at h
      obtain ⟨s, hs, hf⟩ := List.mem_filterMap.mp h
      cases hg : freshGet c0 env.now s with
      | none => rw [hg] at hf; cases hf
      | some e =>
        rw [hg, Option.map_some'] at hf
        injection hf with hf1
        rw [← hf1]
        exact mem_allSyms_of_mem_valid hs
    · rw [if_neg huc] at h
      cases h
  · obtain ⟨b, hb, hsym⟩ := mem_processBatches h
    have hx := mem_of_mem_chunksOf hb hsym
    by_cases huc : (!fr && !byp) = true
    · rw [if_pos huc] at hx
      exact mem_allSyms_of_mem_valid (List.mem_of_mem_filter hx)
    · rw [if_neg huc] at hx
      exact mem_allSyms_of_mem_valid hx

/-- Witness for C1: with registry `["S"]` and a fresh cache entry for
`"S"`, the served quote's symbol is in the registry. -/
theorem fetch_quotes_subset_registry_witness :
    quoteOfEntry "S" entryS ∈
      (fetchEquityDetailsInBatches trivialEnv ["S"] [("S", entryS)]
        ["S"] 50 false false).1.results ∧
    (quoteOfEntry "S" entryS).symbol ∈ ["S"] := by
  have hres : (fetchEquityDetailsInBatches trivialEnv ["S"] [("S", entryS)]
      ["S"] 50 false false).1.results = [quoteOfEntry "S" entryS] := by
    with_unfolding_all decide
  have hmem : quoteOfEntry "S" entryS ∈
      (fetchEquityDetailsInBatches trivialEnv ["S"] [("S", entryS)]
        ["S"] 50 false false).1.results := by
    rw [hres]
    exact List.mem_singleton.mpr rfl
  exact ⟨hmem, fetch_quotes_subset_registry trivialEnv ["S"] [("S", entryS)]
    ["S"] 50 false false (quoteOfEntry "S" entryS) hmem⟩

theorem metricsInv_addQuoteInd {acc : List (String × IMetrics)} {ind : String}
    {q : Quote} (h : MetricsInv acc) : MetricsInv (addQuoteInd acc ind q) := by
  unfold addQuoteInd
  split
  · intro p hp
    obtain ⟨p', hp', heq⟩ := List.mem_map.mp hp
    by_cases hi : p'.1 = ind
    · rw [if_pos hi] at heq
      subst heq
      obtain ⟨h1, h2⟩ := h p' hp'
      refine ⟨?_, ?_⟩
      · simp [bumpMetrics, h1]
      · simp [bumpMetrics, h2]
    · rw [if_neg hi] at heq
      subst heq
      exact h p' hp'
  · intro p hp
    rcases List.mem_append.mp hp with hp | hp
    · exact h p hp
    · rw [List.mem_singleton] at hp
      subst hp
      exact ⟨by simp [bumpMetrics], by simp [bumpMetrics]⟩

theorem metricsInv_foldInds {q : Quote} :
    ∀ (inds : List String) (acc : List (String × IMetrics)), MetricsInv acc →
      MetricsInv (inds.foldl (fun a i => addQuoteInd a i q) acc) := by
  intro inds
  induction inds with
  | nil => intro acc h; exact h
  | cons i rest ih =>
    intro acc h
    exact ih (addQuoteInd acc i q) (metricsInv_addQuoteInd h)

theorem metricsInv_buildMetrics (s2i : String → Option (List String))
    (quotes : List Quote) : MetricsInv (buildMetrics s2i quotes) := by
  unfold buildMetrics
  suffices H : ∀ acc, MetricsInv acc →
      MetricsInv (quotes.foldl
        (fun acc q => (industriesOf s2i q.symbol).foldl
          (fun a i => addQuoteInd a i q) acc) acc) from
    H [] (fun p hp => absurd hp (List.not_mem_nil p))
  induction quotes with
  | nil => intro acc h; exact h
  | cons q rest ih =>
    intro acc h
    exact ih _ (metricsInv_foldInds _ acc h)

theorem sortStocksDesc_perm (l : List Quote) : (sortStocksDesc l).Perm l :=
  List.mergeSort_perm l _

theorem sortStocksDesc_sorted (l : List Quote) :
    List.Pairwise (fun a b : Quote =>
      b.priceInfo.pChange ≤ a.priceInfo.pChange) (sortStocksDesc l) := by
  have h := @List.sorted_mergeSort Quote
    (fun a b : Quote => decide (b.priceInfo.pChange ≤ a.priceInfo.pChange))
    (fun a b c h1 h2 => by
      simp only [decide_eq_true_eq] at h1 h2 ⊢
      exact le_trans h2 h1)
    (fun a b => by
      simp only [Bool.or_eq_true, decide_eq_true_eq]
      exact le_total _ _)
    l
  exact h.imp (fun hab => of_decide_eq_true hab)

/-- C3: for every industry aggregate emitted by the aggregation step,
`avgPChange` is the mean of the constituent quotes' percent changes
formatted to 2 decimal places, the constituent stocks are sorted
descending by percent change, `topStock` is the head of that sorted
list, and `stockCount` is the number of constituents. -/
theorem industry_aggregation_correct (s2i : String → Option (List String))
    (quotes : List Quote) (agg : IndustryAgg)
    (h : agg ∈ aggregateIndustries s2i quotes) :
    agg.avgPChange =
      toFixed2Str ((agg.stocks.map (fun q => q.priceInfo.pChange)).sum /
        (agg.stocks.length : ℚ)) ∧
    List.Pairwise (fun a b : Quote =>
      b.priceInfo.pChange ≤ a.priceInfo.pChange) agg.stocks ∧
    agg.topStock = agg.stocks.head? ∧
    agg.stockCount = agg.stocks.length := by
  unfold aggregateIndustries at h
  obtain ⟨hmem, hposb⟩ := List.mem_filter.mp h
  obtain ⟨p, hp, heq⟩ := List.mem_map.mp hmem
  obtain ⟨hsum, hcount⟩ := metricsInv_buildMetrics s2i quotes p hp
  subst heq
  have hpos : 0 < p.2.count := of_decide_eq_true hposb
  have hperm := sortStocksDesc_perm p.2.stocks
  have hlen : (sortStocksDesc p.2.stocks).length = p.2.stocks.length :=
    hperm.length_eq
  have hmsum : ((sortStocksDesc p.2.stocks).map
      (fun q => q.priceInfo.pChange)).sum =
      (p.2.stocks.map (fun q => q.priceInfo.pChange)).sum :=
    (hperm.map (fun q => q.priceInfo.pChange)).sum_eq
  refine ⟨?_, sortStocksDesc_sorted p.2.stocks, rfl, ?_⟩
  · show (if 0 < p.2.count then
        toFixed2Str (p.2.totalPChange / (p.2.count : ℚ)) else "0") = _
    rw [if_pos hpos]
    congr 1
    rw [hmsum, hlen, ← hsum, hcount]
  · show p.2.count = (sortStocksDesc p.2.stocks).length
    rw [hlen, hcount]

/-- Witness for C3: quotes A (+2.0) and B (+4.0), both in "Tech", yield
the aggregate with `avgPChange = "3.00"` and `topStock` B. -/
theorem industry_aggregation_correct_witness :
    aggTech ∈ aggregateIndustries s2iTech [qA, qB] ∧
    aggTech.avgPChange = "3.00" ∧
    aggTech.topStock.map (fun q => q.symbol) = some "B" ∧
    aggTech.avgPChange =
      toFixed2Str ((aggTech.stocks.map (fun q => q.priceInfo.pChange)).sum /
        (aggTech.stocks.length : ℚ)) := by
  have hl : aggregateIndustries s2iTech [qA, qB] = [aggTech] := by
    with_unfolding_all decide
  have hmem : aggTech ∈ aggregateIndustries s2iTech [qA, qB] := by
    rw [hl]
    exact List.mem_singleton.mpr rfl
  have h := industry_aggregation_correct s2iTech [qA, qB] aggTech hmem
  exact ⟨hmem, rfl, rfl, h.1⟩

/-- C4: the market summary's losers are exactly quotes with strictly
negative percent change, sorted ascending (most negative first) and
truncated to at most 10; the gainers are the first 10 of the quotes
sorted descending by percent change. -/
theorem gainers_losers_selection (quotes : List Quote) :
    (∀ q ∈ (marketSummary quotes).2, q.priceInfo.pChange < 0) ∧
    List.Pairwise (fun a b : Quote =>
      a.priceInfo.pChange ≤ b.priceInfo.pChange) (marketSummary quotes).2 ∧
    (marketSummary quotes).2.length ≤ 10 ∧
    (marketSummary quotes).1 = (sortStocksDesc quotes).take 10 ∧
    List.Pairwise (fun a b : Quote =>
      b.priceInfo.pChange ≤ a.priceInfo.pChange) (marketSummary quotes).1 := by
  refine ⟨?_, ?_, ?_, rfl, ?_⟩
  · intro q hq
    have h1 := List.mem_of_mem_take hq
    have h2 := (List.mergeSort_perm _ _).mem_iff.mp h1
    have h3 := (List.mem_filter.mp h2).2
    exact of_decide_eq_true h3
  · have hs := @List.sorted_mergeSort Quote
      (fun a b : Quote => decide (a.priceInfo.pChange ≤ b.priceInfo.pChange))
      (fun a b c h1 h2 => by
        simp only [decide_eq_true_eq] at h1 h2 ⊢
        exact le_trans h1 h2)
      (fun a b => by
        simp only [Bool.or_eq_true, decide_eq_true_eq]
        exact le_total _ _)
      ((sortStocksDesc quotes).filter (fun q => q.priceInfo.pChange < 0))
    exact List.Pairwise.sublist (List.take_sublist _ _)
      (hs.imp (fun hab => of_decide_eq_true hab))
  · exact List.length_take_le _ _
  · exact List.Pairwise.sublist (List.take_sublist _ _)
      (sortStocksDesc_sorted quotes)

/-- Witness for C4: for percent changes `[-5, -1, -8, +2]` the top-2
losers are `[-8, -5]`, the positive entry never appears among the
losers, and the most negative loser is indeed strictly negative. -/
theorem gainers_losers_selection_witness :
    ((marketSummary exQuotes).2.take 2).map (fun q => q.priceInfo.pChange) =
      [-8, -5] ∧
    mkQuote "z" 2 ∉ (marketSummary exQuotes).2 ∧
    mkQuote "y" (-8) ∈ (marketSummary exQuotes).2 ∧
    (mkQuote "y" (-8)).priceInfo.pChange < 0 := by
  have hl : (marketSummary exQuotes).2 =
      [mkQuote "y" (-8), mkQuote "w" (-5), mkQuote "x" (-1)] := by
    with_unfolding_all decide
  have hmem : mkQuote "y" (-8) ∈ (marketSummary exQuotes).2 := by
    rw [hl]
    exact List.mem_cons_self _ _
  refine ⟨?_, ?_, hmem, (gainers_losers_selection exQuotes).1 _ hmem⟩
  · rw [hl]
    with_unfolding_all decide
  · rw [hl]
    with_unfolding_all decide

/-- C7: when the pipeline yields zero valid quotes, `/api/market-data`
responds 500 with an error body, while `/api/industry-data` (whose
cache-only second pass also yields nothing) responds 200 with an empty
industries list and a warning. -/
theorem empty_result_asymmetry (st : PreState) (env : Env) (c0 : Cache)
    (fr byp : Bool) :
    ((fetchEquityDetailsInBatches env st.allSymbols c0
        (marketSymbols st.nifty500Data) BATCH_SIZE fr byp).1.results = [] →
      (marketDataHandler st env c0 fr byp).status = 500 ∧
      (marketDataHandler st env c0 fr byp).error.isSome = true) ∧
    ((industryFetch st env c0 fr byp).1.results = [] →
      industryCachePass st env c0 fr byp = [] →
      (industryDataHandler st env c0 fr byp).status = 200 ∧
      (industryDataHandler st env c0 fr byp).industries = [] ∧
      (industryDataHandler st env c0 fr byp).warning.isSome = true) := by
  constructor
  · intro h
    by_cases hs : marketSymbols st.nifty500Data = []
    · have hm : marketDataHandler st env c0 fr byp =
          { status := 500, error := some "No symbols loaded from NIFTY500.xlsx",
            gainers := [], losers := [], cached := false } := by
        simp only [marketDataHandler, if_pos hs]
      rw [hm]
      exact ⟨rfl, rfl⟩
    · have hm : marketDataHandler st env c0 fr byp =
          { status := 500, error := some "No valid market data retrieved",
            gainers := [], losers := [], cached := false } := by
        simp only [marketDataHandler, if_neg hs]
        rw [if_pos h]
      rw [hm]
      exact ⟨rfl, rfl⟩
  · intro h1 h2
    by_cases hne : st.industryData = []
    · have hm : industryDataHandler st env c0 fr byp =
          { status := 200, industries := [], cached := false,
            warning := some "No industry data available" } := by
        simp only [industryDataHandler, if_pos hne]
      rw [hm]
      exact ⟨rfl, rfl, rfl⟩
    · have hm : industryDataHandler st env c0 fr byp =
          { status := 200, industries := [], cached := false,
            warning := some "No valid industry data retrieved" } := by
        simp only [industryDataHandler, if_neg hne]
        rw [if_pos h1]
        rw [if_pos (by simpa [industryCachePass] using h2)]
      rw [hm]
      exact ⟨rfl, rfl, rfl⟩

/-- Witness for C7: with an empty registry state and an all-rejecting
provider, the market endpoint answers 500 with an error message and the
industry endpoint answers 200 with an empty list and a warning. -/
theorem empty_result_asymmetry_witness :
    (marketDataHandler (PreState.mk [] [] []) trivialEnv [] false false).status
        = 500 ∧
    (marketDataHandler (PreState.mk [] [] []) trivialEnv []
      false false).error.isSome = true ∧
    (industryDataHandler (PreState.mk [] [] []) trivialEnv []
      false false).status = 200 ∧
    (industryDataHandler (PreState.mk [] [] []) trivialEnv []
      false false).industries = [] ∧
    (industryDataHandler (PreState.mk [] [] []) trivialEnv []
      false false).warning.isSome = true := by
  have h := empty_result_asymmetry (PreState.mk [] [] []) trivialEnv [] false false
  have hmkt := h.1 (by with_unfolding_all decide)
  have hind := h.2 (by with_unfolding_all decide) (by with_unfolding_all decide)
  exact ⟨hmkt.1, hmkt.2, hind.1, hind.2.1, hind.2.2⟩

/-- C8: if the registry source yields zero rows or its read throws, the
loaded industry index is the non-empty built-in default mapping, and
`allSymbolsSet` is non-empty, containing every symbol of the default
mapping; the preload always produces a usable state. -/
theorem registry_fallback (res : Except String (List Row))
    (h : res = .ok [] ∨ ∃ msg, res = .error msg) :
    (preloadExcelData res).industryData = DEFAULT_INDUSTRY_DATA ∧
    (preloadExcelData res).industryData ≠ [] ∧
    (preloadExcelData res).allSymbols ≠ [] ∧
    ∀ s ∈ defaultSymbols, s ∈ (preloadExcelData res).allSymbols := by
  rcases h with h | ⟨msg, h⟩ <;> subst h
  · exact ⟨rfl, by decide, by decide, by decide⟩
  · have hrec : preloadExcelData (.error msg) =
        { nifty500Data := [], industryData := DEFAULT_INDUSTRY_DATA,
          allSymbols := defaultSymbols.foldl addSymbolOnce [] } := rfl
    rw [hrec]
    exact ⟨rfl, by decide, by decide, by decide⟩

/-- Witness for C8 at the concrete zero-row read outcome. -/
theorem registry_fallback_witness :
    (preloadExcelData (.ok [])).industryData = DEFAULT_INDUSTRY_DATA ∧
    (preloadExcelData (.ok [])).allSymbols ≠ [] ∧
    "TCS" ∈ (preloadExcelData (.ok [])).allSymbols := by
  have h := registry_fallback (.ok []) (Or.inl rfl)
  exact ⟨h.1, h.2.2.1, h.2.2.2 "TCS" (by decide)⟩

/-- C9 as stated is false: after a registry read failure is recovered by
the fallback mapping, `/api/market-data` *does* return the
registry-empty 500, because its symbol list is derived from the raw
spreadsheet row list (`nifty500Data`), which is empty after fallback. -/
theorem market_after_fallback_counterexample :
    (preloadExcelData (.error "ENOENT")).industryData ≠ [] ∧
    (marketDataHandler (preloadExcelData (.error "ENOENT")) trivialEnv []
      false false).status = 500 ∧
    (marketDataHandler (preloadExcelData (.error "ENOENT")) trivialEnv []
      false false).error = some "No symbols loaded from NIFTY500.xlsx" := by
  refine ⟨by decide, ?_, ?_⟩ <;> with_unfolding_all decide

/-- C9 amended: after a registry read failure recovered by the fallback,
the industry index is the non-empty default, so `/api/industry-data`
never takes its empty-registry branch; but `/api/market-data` derives
its symbols from the raw row list, which is empty, and returns the
registry-empty 500 regardless of the environment or cache. -/
theorem market_after_fallback (e : String) (env : Env) (c0 : Cache)
    (fr byp : Bool) :
    (preloadExcelData (.error e)).industryData = DEFAULT_INDUSTRY_DATA ∧
    marketSymbols (preloadExcelData (.error e)).nifty500Data = [] ∧
    (marketDataHandler (preloadExcelData (.error e)) env c0 fr byp).status
      = 500 ∧
    (marketDataHandler (preloadExcelData (.error e)) env c0 fr byp).error
      = some "No symbols loaded from NIFTY500.xlsx" ∧
    (industryDataHandler (preloadExcelData (.error e)) env c0 fr byp).warning
      ≠ some "No industry data available" := by
  have hnifty : (preloadExcelData (.error e)).nifty500Data = [] := rfl
  have hsym : marketSymbols (preloadExcelData (.error e)).nifty500Data = [] := by
    rw [hnifty]
    rfl
  have hm : marketDataHandler (preloadExcelData (.error e)) env c0 fr byp =
      { status := 500, error := some "No symbols loaded from NIFTY500.xlsx",
        gainers := [], losers := [], cached := false } := by
    simp only [marketDataHandler, if_pos hsym]
  have hrec : (preloadExcelData (.error e)).industryData =
      DEFAULT_INDUSTRY_DATA := rfl
  have hne : (preloadExcelData (.error e)).industryData ≠ [] := by
    rw [hrec]
    decide
  refine ⟨rfl, hsym, by rw [hm], by rw [hm], ?_⟩
  simp only [industryDataHandler, if_neg hne]
  split
  · split
    · simp
    · simp
  · simp

/-- C10: when the batched fetch returns zero quotes, the industry
handler runs a cache-only pass over the handler's symbol list; if that
pass finds fresh entries they are served (aggregated, `cached = true`,
no warning) and each served quote comes from a store entry younger than
the TTL; only if the pass is also empty does the handler return the
empty-list 200-with-warning response. -/
theorem industry_cache_fallback (st : PreState) (env : Env) (c0 : Cache)
    (fr byp : Bool) (hne : st.industryData ≠ [])
    (hf : (industryFetch st env c0 fr byp).1.results = []) :
    (industryCachePass st env c0 fr byp ≠ [] →
      industryDataHandler st env c0 fr byp =
        { status := 200,
          industries := sortIndustriesDesc (aggregateIndustries
            (s2iLookup (buildSymbolMaps st.industryData).2)
            (industryCachePass st env c0 fr byp)),
          cached := true, warning := none } ∧
      ∀ q ∈ industryCachePass st env c0 fr byp, ∃ e,
        cacheGet (industryFetch st env c0 fr byp).2 q.symbol = some e ∧
        env.now - e.timestamp < CACHE_TTL_MS ∧ q = quoteOfEntry q.symbol e) ∧
    (industryCachePass st env c0 fr byp = [] →
      industryDataHandler st env c0 fr byp =
        { status := 200, industries := [], cached := false,
          warning := some "No valid industry data retrieved" }) := by
  constructor
  · intro hcp
    constructor
    · simp only [industryDataHandler, if_neg hne]
      rw [if_pos hf]
      rw [if_neg (by simpa [industryCachePass] using hcp)]
      rfl
    · intro q hq
      exact mem_cachePassList (by simpa [industryCachePass] using hq)
  · intro hcp
    simp only [industryDataHandler, if_neg hne]
    rw [if_pos hf]
    rw [if_pos (by simpa [industryCachePass] using hcp)]

/-- Witness for C10: with all fetches rejecting (`forceRefresh = true`
so the fetch pass itself serves nothing) and one fresh cache entry, the
industry handler serves the cached quote with `cached = true` and no
warning. -/
theorem industry_cache_fallback_witness :
    (industryDataHandler stFallback trivialEnv cacheTCS true false).status
        = 200 ∧
    (industryDataHandler stFallback trivialEnv cacheTCS true false).cached
        = true ∧
    (industryDataHandler stFallback trivialEnv cacheTCS true false).warning
        = none := by
  have h := industry_cache_fallback stFallback trivialEnv cacheTCS true false
    (by decide) (by with_unfolding_all decide)
  have h1 := (h.1 (by with_unfolding_all decide)).1
  rw [h1]
  exact ⟨rfl, rfl, rfl⟩

end NSE
